import Mathlib

/-!
Shallow embedding of the Treegraph series module (`TreegraphSeries.ts`):
the layout-modifier computation (`getLayoutModifiers`), node placement
(`translateNode`), link geometry (`translateLink`), link bookkeeping
(`getLinks`) and the collapse/visibility controller
(`collapseTreeFromPoint` and the series click handler).

JavaScript numbers are modelled as rationals (`ℚ`); `undefined`-able
values as `Option`; `Math.floor`, `Math.round` and the `%` remainder
(which truncates toward zero in JavaScript) are made explicit below.
-/

namespace Treegraph

/-- JavaScript `Math.floor`, as an integer. -/
def jsFloor (q : ℚ) : ℤ := ⌊q⌋

/-- JavaScript `Math.floor`, coerced back to a rational. -/
def jsFloorQ (q : ℚ) : ℚ := (⌊q⌋ : ℤ)

/-- JavaScript `Math.round`: rounds half-way cases toward positive infinity. -/
def jsRound (q : ℚ) : ℤ := ⌊q + 1/2⌋

/-- Highcharts `pick(a, b)` for a possibly-undefined first argument:
the first defined value wins. -/
def pickQ (a : Option ℚ) (b : ℚ) : ℚ := a.getD b

/-- JavaScript `x || 0` on a possibly-undefined number (maps `undefined`
and `0` to `0`, keeps every other number). -/
def orZero (a : Option ℚ) : ℚ := a.getD 0

/-- A TypeScript comma expression `(a, b)`: `a` is evaluated and
discarded, the value is `b`. -/
def tsComma (_a b : ℚ) : ℚ := b

/- *
 * Marker options and node sizing (getLayoutModifiers, lines 323-343)
 * -/

/-- The merged marker options of one point
(`merge(this.options.marker, point.options.marker)`); after the merge
with the series defaults `symbol`, `radius` and `lineWidth` are always
defined while `width`/`height` may stay undefined. -/
structure MarkerOptions where
  symbol : String
  radius : ℚ
  width : Option ℚ
  height : Option ℚ
  lineWidth : ℚ
deriving DecidableEq

/-- `nodeSizeY` as computed in `getLayoutModifiers`:
`symbol === 'circle' ? (pick(markerOptions.radius), 0) * 2 :
pick(markerOptions.height, markerOptions.radius * 2)` — note the
comma expression in the circle branch, which discards the radius. -/
def nodeSizeY (m : MarkerOptions) : ℚ :=
  if m.symbol = "circle" then tsComma m.radius 0 * 2
  else pickQ m.height (m.radius * 2)

/-- `nodeSizeX` as computed in `getLayoutModifiers`:
`symbol === 'circle' ? markerOptions.radius * 2 :
pick(markerOptions.width, markerOptions.radius * 2)`. -/
def nodeSizeX (m : MarkerOptions) : ℚ :=
  if m.symbol = "circle" then m.radius * 2
  else pickQ m.width (m.radius * 2)

/- *
 * getLayoutModifiers (lines 311-380)
 * -/

/-- The abstract layout coordinates of a node, as produced by the
pluggable layout algorithm before `getLayoutModifiers` runs. -/
structure GNode where
  xPosition : ℚ
  yPosition : ℚ
deriving DecidableEq

/-- A point as seen by `getLayoutModifiers`/`translateNode`: its node and
its merged marker options. -/
structure GPoint where
  node : GNode
  marker : MarkerOptions
deriving DecidableEq

/-- The running extrema of the `points.forEach` scan.  The source
initialises `minX`/`minY` to `Infinity` and `maxX`/`maxY` to
`-Infinity`; `none` stands for the still-infinite initial value. -/
structure ScanState where
  minX : Option ℚ
  maxX : Option ℚ
  minY : Option ℚ
  maxY : Option ℚ
  maxXSize : ℚ
  minXSize : ℚ
  maxYSize : ℚ
  minYSize : ℚ
deriving DecidableEq

/-- `x <= minX` where `minX` may still be `Infinity`. -/
def leTop (x : ℚ) : Option ℚ → Bool
  | none => true
  | some m => x ≤ m

/-- `x >= maxX` where `maxX` may still be `-Infinity`. -/
def geBot (x : ℚ) : Option ℚ → Bool
  | none => true
  | some m => m ≤ x

/-- One iteration of the `points.forEach` scan in `getLayoutModifiers`
(lines 323-366).  `markerOptions.lineWidth || 0` is the plain
`lineWidth` here because the merged options always carry a number. -/
def scanStep (st : ScanState) (p : GPoint) : ScanState :=
  let nX := nodeSizeX p.marker
  let nY := nodeSizeY p.marker
  let lw := p.marker.lineWidth
  let st1 := if leTop p.node.xPosition st.minX then
      { st with minX := some p.node.xPosition
                minXSize := max (nX + lw) st.minXSize }
    else st
  let st2 := if geBot p.node.xPosition st1.maxX then
      { st1 with maxX := some p.node.xPosition
                 maxXSize := max (nX + lw) st1.maxXSize }
    else st1
  let st3 := if leTop p.node.yPosition st2.minY then
      { st2 with minY := some p.node.yPosition
                 minYSize := max (nY + lw) st2.minYSize }
    else st2
  if geBot p.node.yPosition st3.maxY then
      { st3 with maxY := some p.node.yPosition
                 maxYSize := max (nY + lw) st3.maxYSize }
  else st3

/-- The whole `points.forEach` scan. -/
def scanPoints (points : List GPoint) : ScanState :=
  points.foldl scanStep ⟨none, none, none, none, 0, 0, 0, 0⟩

/-- The linear transformation `finalPosition = a * calculatedPosition + b`
for both directions.  The source field `by` is spelled `bY` because `by`
is reserved in Lean. -/
structure LayoutModifiers where
  ax : ℚ
  bx : ℚ
  ay : ℚ
  bY : ℚ
deriving DecidableEq

/-- `getLayoutModifiers` (lines 311-380).  The final formulas are
verbatim from the source, including `(maxXSize + maxXSize) / 2` in the
`ax` branch.  `none` corresponds to an empty point list, where the
source's `Infinity` sentinels would survive the scan and the formulas
would not produce finite numbers. -/
def getLayoutModifiers (plotSizeX plotSizeY : ℚ) (points : List GPoint) :
    Option LayoutModifiers :=
  let s := scanPoints points
  match s.minX, s.maxX, s.minY, s.maxY with
  | some minX, some maxX, some minY, some maxY =>
    let ay := if maxY = minY then 1
      else (plotSizeY - (s.minYSize + s.maxYSize) / 2) / (maxY - minY)
    let bY := if maxY = minY then plotSizeY / 2 else -ay * minY + s.minYSize / 2
    let ax := if maxX = minX then 1
      else (plotSizeX - (s.maxXSize + s.maxXSize) / 2) / (maxX - minX)
    let bx := if maxX = minX then plotSizeX / 2 else -ax * minX + s.minXSize / 2
    some ⟨ax, bx, ay, bY⟩
  | _, _, _, _ => none

/- *
 * translateNode (lines 652-688)
 * -/

/-- The output of `translateNode` for one point: pixel position, the
top-left-anchored shape descriptor (the symbol path `d` itself is drawn
by the external renderer and is not modelled), and the tooltip anchor. -/
structure PlacedPoint where
  plotX : ℚ
  plotY : ℚ
  shapeX : ℚ
  shapeY : ℚ
  shapeWidth : ℚ
  shapeHeight : ℚ
  tooltipPos : ℚ × ℚ
deriving DecidableEq

/-- `translateNode` (lines 652-688). -/
def translateNode (inverted reversed : Bool) (plotSizeX plotSizeY : ℚ)
    (lm : LayoutModifiers) (p : GPoint) : PlacedPoint :=
  let x := lm.ax * p.node.xPosition + lm.bx
  let y := lm.ay * p.node.yPosition + lm.bY
  let height := nodeSizeY p.marker
  let width := nodeSizeX p.marker
  let nodeX := if inverted then plotSizeX - width / 2 - x else x - width / 2
  let nodeY := if !reversed then plotSizeY - y - height / 2 else y - height / 2
  { plotX := nodeX
    plotY := nodeY
    shapeX := nodeX
    shapeY := nodeY
    shapeWidth := width
    shapeHeight := height
    tooltipPos := if inverted then
        (plotSizeY - nodeY - height / 2, plotSizeX - nodeX - width / 2)
      else (nodeX + width / 2, nodeY) }

/-- Modelled from the spec: the pluggable layout algorithm
(`TreegraphLayout.js`, imported by the series but not among the sources
at hand) assigns the sole node of a single-node tree the abstract
coordinates `(0, 0)` — leaves are placed at successive integer positions
starting from the origin, and the degenerate-case requirement that the
node land at the center of the plot area pins the origin. -/
def singleNodeLayoutPosition : GNode := ⟨0, 0⟩

/- *
 * translateLink (lines 474-558)
 * -/

/-- An SVG path command, per the external interface: `Move(x,y)`,
`Line(x,y)` or `CubicCurve(c1x,c1y,c2x,c2y,x,y)`. -/
inductive PathCmd where
  | move (x y : ℚ)
  | line (x y : ℚ)
  | cubic (c1x c1y c2x c2y x y : ℚ)
deriving DecidableEq

/-- A placed node box (`shapeArgs` of a node); the source reads every
field through `|| 0`, so each may be undefined. -/
structure ShapeBox where
  x : Option ℚ
  y : Option ℚ
  width : Option ℚ
  height : Option ℚ
deriving DecidableEq

/-- An endpoint of a link as `translateLink` sees it: a node that may or
may not yet carry placed geometry. -/
structure LNode where
  shapeArgs : Option ShapeBox
deriving DecidableEq

/-- The data-label anchor box `link.dlBox`. -/
structure DlBox where
  x : ℚ
  y : ℚ
  height : ℚ
  width : ℚ
deriving DecidableEq

/-- A link as mutated by `translateLink`. -/
structure TLink where
  fromNode : LNode
  toNode : LNode
  /-- `link.options.link && link.options.link.type`, the per-link type
  override picked against the series-level `this.options.link.type`. -/
  linkTypeOverride : Option String
  plotX : Option ℚ
  plotY : Option ℚ
  shapeType : Option String
  /-- the `d` member of `link.shapeArgs`. -/
  shapeArgs : Option (List PathCmd)
  dlBox : Option DlBox
  tooltipPos : Option (ℚ × ℚ)
deriving DecidableEq

/-- The series-level link options `this.options.link`. -/
structure SeriesLinkOptions where
  lineWidth : ℚ
  offset : Option ℚ
  type : String
  radius : ℚ
deriving DecidableEq

/-- `crisp = (Math.round(linkWidth) % 2) / 2` (line 478); `Int.tmod` is
the JavaScript `%`, which truncates toward zero. -/
def crispOffset (linkWidth : ℚ) : ℚ := (Int.tmod (jsRound linkWidth) 2 : ℤ) / 2

/-- The four connection-point coordinates of a link. -/
structure Endpoints where
  x1 : ℚ
  y1 : ℚ
  x2 : ℚ
  y2 : ℚ
deriving DecidableEq

/-- The connection points of `translateLink` (lines 486-505): the
crisp-snapped box-edge coordinates, with `x1`/`x2` shifted by the node
widths when the chart is inverted. -/
def linkEndpoints (linkWidth : ℚ) (inverted : Bool) (fs ts : ShapeBox) :
    Endpoints :=
  let crisp := crispOffset linkWidth
  let x1 := jsFloorQ (orZero fs.x + orZero fs.width) + crisp
  let y1 := jsFloorQ (orZero fs.y + orZero fs.height / 2) + crisp
  let x2 := jsFloorQ (orZero ts.x) + crisp
  let y2 := jsFloorQ (orZero ts.y + orZero ts.height / 2) + crisp
  let x1 := if inverted then x1 - orZero fs.width else x1
  let x2 := if inverted then x2 + orZero ts.width else x2
  ⟨x1, y1, x2, y2⟩

/-- The last point of a path command. -/
def cmdEnd : PathCmd → ℚ × ℚ
  | .move x y => (x, y)
  | .line x y => (x, y)
  | .cubic _ _ _ _ x y => (x, y)

/-- Corner treatment for one interior vertex of a polyline: a genuine
break (both coordinates change between the neighbours) is rounded by
shortening the adjacent segments by the radius — clamped to the segment
length — and bridging with a cubic curve; a non-break vertex stays a
sharp line point.  Helper for `curvedPath`. -/
def cornerCmds (r : ℚ) (prev cur next : ℚ × ℚ) : List PathCmd :=
  if prev.1 ≠ next.1 ∧ prev.2 ≠ next.2 then
    let dX : ℚ := if prev.1 < next.1 then 1 else -1
    let dY : ℚ := if prev.2 < next.2 then 1 else -1
    [.line (cur.1 - dX * min |cur.1 - prev.1| r)
           (cur.2 - dY * min |cur.2 - prev.2| r),
     .cubic cur.1 cur.2 cur.1 cur.2
           (cur.1 + dX * min |cur.1 - next.1| r)
           (cur.2 + dY * min |cur.2 - next.2| r)]
  else [.line cur.1 cur.2]

/-- Rounds every interior vertex of the remaining polyline; the last
vertex is always a plain line end.  Helper for `curvedPath`. -/
def roundCorners (r : ℚ) : ℚ × ℚ → List (ℚ × ℚ) → List PathCmd
  | _, [] => []
  | _, [lastV] => [.line lastV.1 lastV.2]
  | prev, cur :: next :: rest =>
      cornerCmds r prev cur next ++ roundCorners r cur (next :: rest)

/-- Modelled from the spec: `PathUtilities.curvedPath` is imported from
`../PathUtilities.js`, which is not among the sources at hand.  Per the
spec it rounds the corners of a polyline to the configured radius and
degenerates to sharp corners at radius `0`, i.e. it returns the polyline
unchanged there. -/
def curvedPath (path : List PathCmd) (r : ℚ) : List PathCmd :=
  if r = 0 then path
  else match path with
    | [] => []
    | first :: rest =>
      let p0 := cmdEnd first
      .move p0.1 p0.2 :: roundCorners r p0 (rest.map cmdEnd)

/-- `translateLink` (lines 474-558). -/
def translateLink (o : SeriesLinkOptions) (inverted : Bool)
    (plotSizeX plotSizeY : Option ℚ) (link : TLink) : TLink :=
  let linkWidth := o.lineWidth
  let crisp := crispOffset linkWidth
  let factor := pickQ o.offset (1/2)
  let ltype := link.linkTypeOverride.getD o.type
  match link.fromNode.shapeArgs, link.toNode.shapeArgs with
  | some fs, some ts =>
    let ep := linkEndpoints linkWidth inverted fs ts
    let xMiddle := jsFloorQ ((ep.x2 + ep.x1) / 2) + crisp
    let d : List PathCmd :=
      if ltype = "straight" then
        [.move ep.x1 ep.y1, .line ep.x2 ep.y2]
      else if ltype = "curved" then
        let offset := |ep.x2 - ep.x1| * factor * (if inverted then -1 else 1)
        [.move ep.x1 ep.y1,
         .cubic (ep.x1 + offset) ep.y1 (ep.x2 - offset) ep.y2 ep.x2 ep.y2]
      else
        curvedPath
          [.move ep.x1 ep.y1, .line xMiddle ep.y1,
           .line xMiddle ep.y2, .line ep.x2 ep.y2]
          o.radius
    let dlBox : DlBox := ⟨(ep.x1 + ep.x2) / 2, (ep.y1 + ep.y2) / 2, linkWidth, 0⟩
    { link with
      plotX := some xMiddle
      plotY := some ((ep.y1 + ep.y2) / 2)
      shapeType := some "path"
      shapeArgs := some d
      dlBox := some dlBox
      tooltipPos := some (if inverted then
          (orZero plotSizeY - dlBox.y, orZero plotSizeX - dlBox.x)
        else (dlBox.x, dlBox.y)) }
  | _, _ => link

/- *
 * Collapse / visibility controller (lines 692-715)
 * -/

/-- A node together with the point flags the controller touches: the
point's `collapsed` and `hidden` booleans and the node's children. -/
inductive GTree where
  | node (collapsed hidden : Bool) (children : List GTree)

/-- The `collapsed` flag of the tree's root point. -/
def collapsedFlag : GTree → Bool
  | .node c _ _ => c

/-- The `hidden` flag of the tree's root point. -/
def hiddenFlag : GTree → Bool
  | .node _ h _ => h

/-- The children of the tree's root node. -/
def childrenOf : GTree → List GTree
  | .node _ _ cs => cs

mutual

/-- The effect of the body of the `forEach` in `collapseTreeFromPoint`
on one child: `child.point.hidden = hidden` followed by the recursive
call `collapseTreeFromPoint(child, child.point.hidden)` — the argument
of the recursive call is the value just assigned (the intervening
`update({visible: !hidden}, false)` only issues a render notification
and does not touch the `hidden` flag). -/
def hideNode (hidden : Bool) : GTree → GTree
  | .node c _ cs => .node c hidden (hideList hidden cs)

/-- `hideNode` mapped over a child list. -/
def hideList (hidden : Bool) : List GTree → List GTree
  | [] => []
  | t :: ts => hideNode hidden t :: hideList hidden ts

end

/-- `collapseTreeFromPoint(node, hidden)` (lines 706-715): sets the
`hidden` flag of every strict descendant of `node` to the given value;
the node's own flags are untouched. -/
def collapseTreeFromPoint (hidden : Bool) : GTree → GTree
  | .node c h cs => .node c h (hideList hidden cs)

/-- The series click handler (lines 692-697):
`node.point.collapsed = !node.point.collapsed;
collapseTreeFromPoint(node, node.point.collapsed)`. -/
def clickHandler : GTree → GTree
  | .node c h cs => collapseTreeFromPoint (!c) (.node (!c) h cs)

/-- `d` is a strict descendant of the given tree. -/
inductive StrictDesc : GTree → GTree → Prop
  | child {c h cs d} : d ∈ cs → StrictDesc d (.node c h cs)
  | step {c h cs d t} : t ∈ cs → StrictDesc d t → StrictDesc d (.node c h cs)

/- *
 * getLinks (lines 382-408)
 * -/

/-- A link object as `getLinks` manipulates it: the id of the point it
belongs to and its `index` field. -/
structure GLink where
  toPid : ℕ
  index : ℕ
deriving DecidableEq

/-- A point as `getLinks` sees it: an id, whether its node has a parent,
whether it is hidden by collapse (never consulted by `getLinks`), and
the link object it currently carries. -/
structure TPoint where
  pid : ℕ
  hasParent : Bool
  hidden : Bool
  linkToParent : Option GLink
deriving DecidableEq

/-- The mutable state of the `data.forEach` in `getLinks`: the points as
updated so far, `series.links` (the previous pass's array, spliced when
a link is destroyed) and the local `links` array being built. -/
structure LinksState where
  points : List TPoint
  seriesLinks : List GLink
  links : List GLink
deriving DecidableEq

/-- The link a parented point ends up with after one `getLinks`
iteration: a fresh link (`new series.LinkClass().init(...)`) when the
point had none, else the existing one refreshed in place
(`point.linkToParent.update(point.options, false)`, which only updates
options); either way `index = links.push(link) - 1`, i.e. the length of
the local `links` array before the push. -/
def newLink (st : LinksState) (p : TPoint) : GLink :=
  match p.linkToParent with
  | none => { toPid := p.pid, index := st.links.length }
  | some l => { l with index := st.links.length }

/-- One iteration of the `data.forEach` in `getLinks` (lines 385-406).
A parented point gets `newLink` assigned and pushed.  A parentless
point's stale link is destroyed:
`series.links.splice(point.linkToParent.index)` (one-argument `splice`
truncates from that index) and `delete point.linkToParent`. -/
def getLinksStep (st : LinksState) (p : TPoint) : LinksState :=
  if p.hasParent then
    { st with
      points := st.points ++ [{ p with linkToParent := some (newLink st p) }]
      links := st.links ++ [newLink st p] }
  else
    match p.linkToParent with
    | some l =>
      { st with
        points := st.points ++ [{ p with linkToParent := none }]
        seriesLinks := st.seriesLinks.take l.index }
    | none => { st with points := st.points ++ [p] }

/-- `getLinks` (lines 382-408), given the previous `series.links` and
the series data. -/
def getLinks (seriesLinks : List GLink) (data : List TPoint) : LinksState :=
  data.foldl getLinksStep ⟨[], seriesLinks, []⟩

/- *
 * Concrete inputs used by the evaluation theorems below
 * -/

/-- A square marker of visual size 10 (explicit width/height). -/
def c1markerMin : MarkerOptions := ⟨"square", 5, some 10, some 10, 0⟩

/-- A square marker of visual size 20 (explicit width/height). -/
def c1markerMax : MarkerOptions := ⟨"square", 10, some 20, some 20, 0⟩

/-- A collapsed root whose child is itself collapsed, with the child's
child hidden: the state right after the child's subtree was collapsed
and then the root was collapsed. -/
def c3tree : GTree :=
  .node true false [.node true true [.node false true []]]

/-- A point hidden by collapse whose node has a parent. -/
def c4point : TPoint := ⟨7, true, true, none⟩

/-- The point `c4point` as `getLinks` leaves it. -/
def c4out : TPoint := ⟨7, true, true, some ⟨7, 0⟩⟩

/-- Series link options: lineWidth 1, no offset, curved, radius 10. -/
def o6 : SeriesLinkOptions := ⟨1, none, "curved", 10⟩

/-- A 10×10 box at the origin. -/
def fs6 : ShapeBox := ⟨some 0, some 0, some 10, some 10⟩

/-- A 10×10 box at (100, 0). -/
def ts6 : ShapeBox := ⟨some 100, some 0, some 10, some 10⟩

/-- A fresh link between the two placed boxes above. -/
def link6 : TLink :=
  ⟨⟨some fs6⟩, ⟨some ts6⟩, none, none, none, none, none, none, none⟩

/-- Series link options: lineWidth 0, no offset, default type, radius 0. -/
def o7 : SeriesLinkOptions := ⟨0, none, "default", 0⟩

/-- A degenerate box at the origin. -/
def fs7 : ShapeBox := ⟨some 0, some 0, some 0, some 0⟩

/-- A degenerate box at (1, 10). -/
def ts7 : ShapeBox := ⟨some 1, some 10, some 0, some 0⟩

/-- A fresh link between the two degenerate boxes above. -/
def link7 : TLink :=
  ⟨⟨some fs7⟩, ⟨some ts7⟩, none, none, none, none, none, none, none⟩

/-- A box at the origin with fractional width 1/2. -/
def fs8 : ShapeBox := ⟨some 0, some 0, some (1/2), some 0⟩

/-- A degenerate box at (1, 10). -/
def ts8 : ShapeBox := ⟨some 1, some 10, some 0, some 0⟩

/-- A link whose from-endpoint has no placed geometry. -/
def link9 : TLink :=
  ⟨⟨none⟩, ⟨some ⟨some 0, some 0, some 1, some 1⟩⟩, none,
   some 3, some 4, some "x", some [.move 1 2], some ⟨1, 2, 3, 4⟩, some (5, 6)⟩

/- *
 * Theorems
 * -/

/-- The 10-sized square marker has horizontal footprint 10. -/
theorem nodeSizeX_sq10 : nodeSizeX ⟨"square", 5, some 10, some 10, 0⟩ = 10 := by
  rw [nodeSizeX, if_neg (by decide)]; rfl

/-- The 10-sized square marker has vertical footprint 10. -/
theorem nodeSizeY_sq10 : nodeSizeY ⟨"square", 5, some 10, some 10, 0⟩ = 10 := by
  rw [nodeSizeY, if_neg (by decide)]; rfl

/-- The 20-sized square marker has horizontal footprint 20. -/
theorem nodeSizeX_sq20 : nodeSizeX ⟨"square", 10, some 20, some 20, 0⟩ = 20 := by
  rw [nodeSizeX, if_neg (by decide)]; rfl

/-- The 20-sized square marker has vertical footprint 20. -/
theorem nodeSizeY_sq20 : nodeSizeY ⟨"square", 10, some 20, some 20, 0⟩ = 20 := by
  rw [nodeSizeY, if_neg (by decide)]; rfl

/-- C1: evaluation of `getLayoutModifiers` at a failing input.  With two
square markers of sizes 10 (at the minimum of both axes) and 20 (at the
maximum of both axes), stroke width 0, on a 100×50 plot, the y-axis
scale follows the claimed formula, `ay = (50 - (10 + 20)/2)/(1 - 0) = 35`,
but the x-axis scale is `ax = (100 - (20 + 20)/2)/(1 - 0) = 80`: the
source uses `(maxXSize + maxXSize) / 2` where the claim (and the
symmetric y-axis code) has `(minXSize + maxXSize) / 2`, which would give
85. -/
theorem c1_ax_uses_maxXSize_twice :
    getLayoutModifiers 100 50 [⟨⟨0, 0⟩, c1markerMin⟩, ⟨⟨1, 1⟩, c1markerMax⟩] =
      some ⟨80, 5, 35, 5⟩ ∧
    (100 - ((10 : ℚ) + 20) / 2) / (1 - 0) = 85 ∧
    (50 - ((10 : ℚ) + 20) / 2) / (1 - 0) = 35 ∧
    (80 : ℚ) ≠ 85 := by
  refine ⟨?_, by norm_num, by norm_num, by norm_num⟩
  norm_num [getLayoutModifiers, scanPoints, scanStep, leTop, geBot,
    nodeSizeX_sq10, nodeSizeY_sq10, nodeSizeX_sq20, nodeSizeY_sq20,
    sup_eq_max, max_def, c1markerMin, c1markerMax]

/-- C2: for a circle marker of radius 10 the code assigns
`nodeSizeX = 20` but `nodeSizeY = 0`: the circle branch of `nodeSizeY`
is the comma expression `(pick(markerOptions.radius), 0) * 2`, which
discards the radius and multiplies 0 by 2 — the claimed value is
`2 × radius = 20`.  The non-circle branches do follow the claim
(explicit height when given, else `2 × radius`). -/
theorem c2_circle_nodeSizeY_zero :
    nodeSizeX ⟨"circle", 10, none, none, 0⟩ = 20 ∧
    nodeSizeY ⟨"circle", 10, none, none, 0⟩ = 0 ∧
    2 * (10 : ℚ) = 20 ∧ (0 : ℚ) ≠ 20 ∧
    nodeSizeY ⟨"square", 10, none, some 15, 0⟩ = 15 ∧
    nodeSizeY ⟨"square", 10, none, none, 0⟩ = 20 := by
  refine ⟨?_, ?_, by norm_num, by norm_num, ?_, ?_⟩
  · rw [nodeSizeX, if_pos rfl]; norm_num
  · rw [nodeSizeY, if_pos rfl, tsComma]; norm_num
  · rw [nodeSizeY, if_neg (by decide)]; rfl
  · rw [nodeSizeY, if_neg (by decide), pickQ]; norm_num

/-- C5: for a single-node tree — sole node at the spec-modelled abstract
position `(0, 0)` — both axes are degenerate, `getLayoutModifiers`
returns scale `1` and offset half the plot span on each axis (taking the
non-division branch), and `translateNode` then places the node's center
at the center of the plot area. -/
theorem c5_degenerate_single_node_center (plotSizeX plotSizeY : ℚ)
    (m : MarkerOptions) :
    getLayoutModifiers plotSizeX plotSizeY [⟨singleNodeLayoutPosition, m⟩] =
      some ⟨1, plotSizeX / 2, 1, plotSizeY / 2⟩ ∧
    (translateNode false false plotSizeX plotSizeY
        ⟨1, plotSizeX / 2, 1, plotSizeY / 2⟩ ⟨singleNodeLayoutPosition, m⟩).plotX
      + nodeSizeX m / 2 = plotSizeX / 2 ∧
    (translateNode false false plotSizeX plotSizeY
        ⟨1, plotSizeX / 2, 1, plotSizeY / 2⟩ ⟨singleNodeLayoutPosition, m⟩).plotY
      + nodeSizeY m / 2 = plotSizeY / 2 := by
  refine ⟨?_, ?_, ?_⟩
  · simp [getLayoutModifiers, scanPoints, scanStep, leTop, geBot,
      singleNodeLayoutPosition]
  · simp [translateNode, singleNodeLayoutPosition]
    try ring
  · simp [translateNode, singleNodeLayoutPosition]
    try ring

/-- A `foldl` preserves any invariant its step function preserves. -/
theorem foldl_invariant {α β : Type} (P : β → Prop) (f : β → α → β)
    (hf : ∀ b, P b → ∀ a, P (f b a)) :
    ∀ (l : List α) (b : β), P b → P (l.foldl f b) := by
  intro l
  induction l with
  | nil => intro b hb; exact hb
  | cons a l ih =>
    intro b hb
    exact ih (f b a) (hf b hb a)

/-- `hideNode` stamps the given flag on the node itself. -/
theorem hiddenFlag_hideNode (b : Bool) (t : GTree) :
    hiddenFlag (hideNode b t) = b := by
  cases t with
  | node c h cs => rw [hideNode, hiddenFlag]

/-- Every member of a `hideList` is a `hideNode` of a member. -/
theorem mem_hideList {b : Bool} {d : GTree} :
    ∀ {ts : List GTree}, d ∈ hideList b ts → ∃ t, t ∈ ts ∧ d = hideNode b t := by
  intro ts
  induction ts with
  | nil => intro h; rw [hideList] at h; exact absurd h (List.not_mem_nil d)
  | cons t ts ih =>
    intro h
    rw [hideList] at h
    rcases List.mem_cons.mp h with h1 | h2
    · exact ⟨t, List.mem_cons_self t ts, h1⟩
    · rcases ih h2 with ⟨w, hw, he⟩
      exact ⟨w, List.mem_cons_of_mem _ hw, he⟩

/-- Every strict descendant of a `hideNode` result carries the stamped
flag. -/
theorem strictDesc_hideNode {d x : GTree} (hd : StrictDesc d x) :
    ∀ (b : Bool) (t : GTree), x = hideNode b t → hiddenFlag d = b := by
  induction hd with
  | child hmem =>
    intro b t hx
    cases t with
    | node c0 h0 cs0 =>
      rw [hideNode] at hx
      injection hx with e1 e2 e3
      subst e3
      rcases mem_hideList hmem with ⟨w, _, rfl⟩
      exact hiddenFlag_hideNode b w
  | step hmem hdesc ih =>
    intro b t hx
    cases t with
    | node c0 h0 cs0 =>
      rw [hideNode] at hx
      injection hx with e1 e2 e3
      subst e3
      rcases mem_hideList hmem with ⟨w, _, rfl⟩
      exact ih b w rfl

/-- C3 (amended): after the click handler toggles a node, every strict
descendant of the toggled node ends with `hidden` equal to the node's
new `collapsed` value — so a transition to collapsed hides all
descendants, and a transition to expanded clears `hidden` on all
descendants, a descendant's own `collapsed` flag notwithstanding (the
recursion passes on the `hidden` value it just assigned, never the
child's `collapsed` flag). -/
theorem c3_toggle_descendants_hidden (t d : GTree)
    (hdes : StrictDesc d (clickHandler t)) :
    hiddenFlag d = !collapsedFlag t := by
  cases t with
  | node c h cs =>
    rw [clickHandler, collapseTreeFromPoint] at hdes
    rw [collapsedFlag]
    cases hdes with
    | child hmem =>
      rcases mem_hideList hmem with ⟨w, _, rfl⟩
      exact hiddenFlag_hideNode (!c) w
    | step hmem hdesc =>
      rcases mem_hideList hmem with ⟨w, _, rfl⟩
      exact strictDesc_hideNode hdesc (!c) w rfl

/-- C3 witness: in `c3tree` (collapsed root, collapsed child, hidden
grandchild), clicking the root — a transition to expanded — leaves the
grandchild with `hidden = false`. -/
theorem c3_toggle_descendants_hidden_witness :
    hiddenFlag (GTree.node false false []) = !collapsedFlag c3tree := by
  apply c3_toggle_descendants_hidden c3tree
  have he : clickHandler c3tree =
      GTree.node false false [GTree.node true false [GTree.node false false []]] :=
    rfl
  rw [he]
  have hin : StrictDesc (GTree.node false false [])
      (GTree.node true false [GTree.node false false []]) :=
    StrictDesc.child (List.mem_singleton.mpr rfl)
  exact StrictDesc.step (List.mem_singleton.mpr rfl) hin

/-- C3 counterexample: in `c3tree` the root is collapsed, its child is
independently collapsed and the grandchild is hidden; clicking the root
(a toggle transition to expanded) nevertheless ends with the grandchild
not hidden — the collapsed child does not halt the propagation, contrary
to the claim that its children remain hidden. -/
theorem c3_expand_counterexample :
    collapsedFlag c3tree = true ∧
    ((childrenOf c3tree).head?.map collapsedFlag) = some true ∧
    ((childrenOf c3tree).head?.bind fun b => (childrenOf b).head?).map
        hiddenFlag = some true ∧
    ((childrenOf (clickHandler c3tree)).head?.bind fun b =>
        (childrenOf b).head?).map hiddenFlag = some false :=
  ⟨rfl, rfl, rfl, rfl⟩

/-- `getLinksStep` preserves the links-iff-parent invariant. -/
theorem getLinksStep_keeps (st : LinksState) (p : TPoint)
    (hst : ∀ q ∈ st.points,
      q.linkToParent.isSome = q.hasParent ∧
      ∀ l, q.linkToParent = some l → l ∈ st.links) :
    ∀ q ∈ (getLinksStep st p).points,
      q.linkToParent.isSome = q.hasParent ∧
      ∀ l, q.linkToParent = some l → l ∈ (getLinksStep st p).links := by
  intro q hq
  by_cases hp : p.hasParent = true
  · rw [getLinksStep, if_pos hp] at hq ⊢
    rcases List.mem_append.mp hq with h1 | h2
    · rcases hst q h1 with ⟨ha, hb⟩
      exact ⟨ha, fun l hl => List.mem_append_left _ (hb l hl)⟩
    · rw [List.mem_singleton] at h2
      subst h2
      refine ⟨by rw [hp]; rfl, fun l hl => ?_⟩
      cases Option.some.inj hl
      exact List.mem_append_right _ (List.mem_singleton.mpr rfl)
  · have hp2 : p.hasParent = false := by
      rwa [Bool.not_eq_true] at hp
    rw [getLinksStep, if_neg hp] at hq ⊢
    rcases hl0 : p.linkToParent with _ | l0
    · rw [hl0] at hq
      rcases List.mem_append.mp hq with h1 | h2
      · rcases hst q h1 with ⟨ha, hb⟩
        exact ⟨ha, hb⟩
      · rw [List.mem_singleton] at h2
        subst h2
        exact ⟨by simp [hl0, hp2], fun l hl2 => by
          rw [hl0] at hl2; cases hl2⟩
    · rw [hl0] at hq
      rcases List.mem_append.mp hq with h1 | h2
      · rcases hst q h1 with ⟨ha, hb⟩
        exact ⟨ha, hb⟩
      · rw [List.mem_singleton] at h2
        subst h2
        exact ⟨by simp [hp2], fun l hl2 => by cases hl2⟩

/-- C4 (amended): after `getLinks` runs, a point carries a link to its
parent — and that link appears in the returned link list — if and only
if the point's node has a parent; the `hidden` flag is not consulted.  A
point whose node has no parent ends with its previous link destroyed and
removed (`linkToParent` cleared). -/
theorem c4_link_iff_parent (seriesLinks : List GLink) (data : List TPoint)
    (q : TPoint) (hq : q ∈ (getLinks seriesLinks data).points) :
    q.linkToParent.isSome = q.hasParent ∧
    ∀ l, q.linkToParent = some l → l ∈ (getLinks seriesLinks data).links := by
  revert q hq
  rw [getLinks]
  exact foldl_invariant
    (fun st => ∀ q ∈ st.points,
      q.linkToParent.isSome = q.hasParent ∧
      ∀ l, q.linkToParent = some l → l ∈ st.links)
    getLinksStep
    (fun st hst p => getLinksStep_keeps st p hst)
    data ⟨[], seriesLinks, []⟩
    (fun q hq => absurd hq (List.not_mem_nil q))

/-- C4 witness: the hidden parented point of `c4_hidden_counterexample`
carries a link that is in the returned list. -/
theorem c4_link_iff_parent_witness :
    c4out.linkToParent.isSome = c4out.hasParent ∧
    GLink.mk 7 0 ∈ (getLinks [] [c4point]).links :=
  ⟨(c4_link_iff_parent [] [c4point] c4out (by decide)).1,
   (c4_link_iff_parent [] [c4point] c4out (by decide)).2 ⟨7, 0⟩ rfl⟩

/-- C4 counterexample: `c4point` is hidden by collapse yet has a parent,
and `getLinks` still gives it a link and puts that link in the returned
list — contradicting the claimed "and the point is not hidden by
collapse" side of the iff. -/
theorem c4_hidden_counterexample :
    c4point.hidden = true ∧ c4point.hasParent = true ∧
    (getLinks [] [c4point]).points = [c4out] ∧
    (getLinks [] [c4point]).links = [⟨7, 0⟩] ∧
    c4out.linkToParent = some ⟨7, 0⟩ := by decide

/-- The link pushed by a `getLinks` iteration has its `index` set to the
length of the link list before the push. -/
theorem newLink_index (st : LinksState) (p : TPoint) :
    (newLink st p).index = st.links.length := by
  rw [newLink]
  rcases p.linkToParent with _ | l0
  · rfl
  · rfl

/-- `getLinksStep` preserves the index-equals-position invariant. -/
theorem getLinksStep_index (st : LinksState) (p : TPoint)
    (hst : ∀ i (h : i < st.links.length), (st.links.get ⟨i, h⟩).index = i) :
    ∀ i (h : i < (getLinksStep st p).links.length),
      ((getLinksStep st p).links.get ⟨i, h⟩).index = i := by
  by_cases hp : p.hasParent = true
  · rw [getLinksStep, if_pos hp]
    intro i h
    simp only [List.length_append, List.length_singleton] at h
    by_cases hi : i < st.links.length
    · have h3 : ∀ hx, (st.links ++ [newLink st p]).get ⟨i, hx⟩ =
          st.links.get ⟨i, hi⟩ := by
        intro hx
        rw [List.get_eq_getElem, List.get_eq_getElem]
        exact List.getElem_append_left hi
      rw [h3]
      exact hst i hi
    · have hieq : i = st.links.length := by omega
      subst hieq
      have h3 : ∀ hx, (st.links ++ [newLink st p]).get ⟨st.links.length, hx⟩ =
          newLink st p := by
        intro hx
        rw [List.get_eq_getElem]
        exact List.getElem_concat_length st.links (newLink st p)
          st.links.length rfl _
      rw [h3]
      exact newLink_index st p
  · rw [getLinksStep, if_neg hp]
    rcases hl0 : p.linkToParent with _ | l0
    · exact hst
    · exact hst

/-- C10: after `getLinks` returns, every link in the returned list has
its `index` field equal to its position in that list — whether it was
created fresh this pass or reused from a previous pass, its index is
overwritten with `links.push(...) - 1` as it is appended. -/
theorem c10_links_index_eq_position (seriesLinks : List GLink)
    (data : List TPoint) (i : ℕ)
    (h : i < (getLinks seriesLinks data).links.length) :
    ((getLinks seriesLinks data).links.get ⟨i, h⟩).index = i := by
  revert i h
  rw [getLinks]
  exact foldl_invariant
    (fun st => ∀ i (h : i < st.links.length), (st.links.get ⟨i, h⟩).index = i)
    getLinksStep
    (fun st hst p => getLinksStep_index st p hst)
    data ⟨[], seriesLinks, []⟩
    (fun i h => absurd h (Nat.not_lt_zero i))

/-- C10 witness: with two parented points the returned links carry
indices 0 and 1; the second is checked here. -/
theorem c10_links_index_eq_position_witness :
    ((getLinks [] [⟨1, true, false, none⟩, ⟨2, true, false, none⟩]).links.get
      ⟨1, by decide⟩).index = 1 :=
  c10_links_index_eq_position [] [⟨1, true, false, none⟩, ⟨2, true, false, none⟩]
    1 (by decide)

/-- C6: for a link whose resolved type is `curved` (its override, or the
series default when unset) and both endpoints placed, the produced path
is exactly one Move followed by one cubic Bezier from `(x1, y1)` to
`(x2, y2)` whose control points are `(x1 + o, y1)` and `(x2 - o, y2)`
with `o = |x2 - x1| * factor`, where `factor = pick(link.offset, 0.5)`
defaults to `0.5` when the option is unset and the sign of `o` flips
when the chart is inverted. -/
theorem c6_curved_link_path (o : SeriesLinkOptions) (inverted : Bool)
    (plotSizeX plotSizeY : Option ℚ) (link : TLink) (fs ts : ShapeBox)
    (hf : link.fromNode.shapeArgs = some fs)
    (ht : link.toNode.shapeArgs = some ts)
    (hty : link.linkTypeOverride.getD o.type = "curved") :
    (translateLink o inverted plotSizeX plotSizeY link).shapeArgs =
      (let ep := linkEndpoints o.lineWidth inverted fs ts
       let offset := |ep.x2 - ep.x1| * pickQ o.offset (1/2) *
         (if inverted then -1 else 1)
       some [PathCmd.move ep.x1 ep.y1,
             PathCmd.cubic (ep.x1 + offset) ep.y1 (ep.x2 - offset) ep.y2
               ep.x2 ep.y2]) := by
  rcases link with ⟨⟨fsa⟩, ⟨tsa⟩, lto, px, py, stp, sa, dlb, tp⟩
  have hf2 : fsa = some fs := hf
  have ht2 : tsa = some ts := ht
  subst hf2 ht2
  have hty2 : lto.getD o.type = "curved" := hty
  simp only [translateLink, hty2]
  simp

/-- C6 witness: the curved path between the two placed 10×10 boxes of
`link6` under `o6` (lineWidth 1, no offset option). -/
theorem c6_curved_link_path_witness :
    (translateLink o6 false none none link6).shapeArgs =
      (let ep := linkEndpoints o6.lineWidth false fs6 ts6
       let offset := |ep.x2 - ep.x1| * pickQ o6.offset (1/2) *
         (if false then -1 else 1)
       some [PathCmd.move ep.x1 ep.y1,
             PathCmd.cubic (ep.x1 + offset) ep.y1 (ep.x2 - offset) ep.y2
               ep.x2 ep.y2]) :=
  c6_curved_link_path o6 false none none link6 fs6 ts6 rfl rfl rfl

/-- C7 (amended): for a link whose resolved type is neither `straight`
nor `curved`, the path is `PathUtilities.curvedPath` — the
corner-rounding by `link.radius` — of the L-shaped polyline
`Move(x1,y1), Line(xMiddle,y1), Line(xMiddle,y2), Line(x2,y2)`, where
`xMiddle = Math.floor((x2 + x1) / 2) + crisp` is the crisp-snapped
floored midpoint of the two connection points, not the exact midpoint;
at radius 0 the corners degenerate to sharp corners (the polyline
itself). -/
theorem c7_default_link_path (o : SeriesLinkOptions) (inverted : Bool)
    (plotSizeX plotSizeY : Option ℚ) (link : TLink) (fs ts : ShapeBox)
    (hf : link.fromNode.shapeArgs = some fs)
    (ht : link.toNode.shapeArgs = some ts)
    (h1 : link.linkTypeOverride.getD o.type ≠ "straight")
    (h2 : link.linkTypeOverride.getD o.type ≠ "curved") :
    ((translateLink o inverted plotSizeX plotSizeY link).shapeArgs =
      (let ep := linkEndpoints o.lineWidth inverted fs ts
       let xMiddle := jsFloorQ ((ep.x2 + ep.x1) / 2) + crispOffset o.lineWidth
       some (curvedPath
         [PathCmd.move ep.x1 ep.y1, PathCmd.line xMiddle ep.y1,
          PathCmd.line xMiddle ep.y2, PathCmd.line ep.x2 ep.y2] o.radius))) ∧
    (o.radius = 0 →
      (translateLink o inverted plotSizeX plotSizeY link).shapeArgs =
      (let ep := linkEndpoints o.lineWidth inverted fs ts
       let xMiddle := jsFloorQ ((ep.x2 + ep.x1) / 2) + crispOffset o.lineWidth
       some [PathCmd.move ep.x1 ep.y1, PathCmd.line xMiddle ep.y1,
          PathCmd.line xMiddle ep.y2, PathCmd.line ep.x2 ep.y2])) := by
  rcases link with ⟨⟨fsa⟩, ⟨tsa⟩, lto, px, py, stp, sa, dlb, tp⟩
  have hf2 : fsa = some fs := hf
  have ht2 : tsa = some ts := ht
  subst hf2 ht2
  have h12 : lto.getD o.type ≠ "straight" := h1
  have h22 : lto.getD o.type ≠ "curved" := h2
  constructor
  · simp only [translateLink, if_neg h12, if_neg h22]
  · intro hr
    simp only [translateLink, if_neg h12, if_neg h22, hr, curvedPath, if_pos rfl]
    simp

/-- C7 witness: the default-type link `link7` under `o7` (radius 0). -/
theorem c7_default_link_path_witness :
    ((translateLink o7 false none none link7).shapeArgs =
      (let ep := linkEndpoints o7.lineWidth false fs7 ts7
       let xMiddle := jsFloorQ ((ep.x2 + ep.x1) / 2) + crispOffset o7.lineWidth
       some (curvedPath
         [PathCmd.move ep.x1 ep.y1, PathCmd.line xMiddle ep.y1,
          PathCmd.line xMiddle ep.y2, PathCmd.line ep.x2 ep.y2] o7.radius))) ∧
    (o7.radius = 0 →
      (translateLink o7 false none none link7).shapeArgs =
      (let ep := linkEndpoints o7.lineWidth false fs7 ts7
       let xMiddle := jsFloorQ ((ep.x2 + ep.x1) / 2) + crispOffset o7.lineWidth
       some [PathCmd.move ep.x1 ep.y1, PathCmd.line xMiddle ep.y1,
          PathCmd.line xMiddle ep.y2, PathCmd.line ep.x2 ep.y2])) :=
  c7_default_link_path o7 false none none link7 fs7 ts7 rfl rfl
    (by decide) (by decide)

/-- C7 counterexample: for `link7` (connection points x1 = 0, x2 = 1,
radius 0, lineWidth 0) the produced path runs through `xMiddle = 0` —
`Math.floor((0 + 1)/2) + 0` — while the exact midpoint of the connection
points is `1/2`, so the path is not the polyline through the midpoint
that the claim describes. -/
theorem c7_xMiddle_counterexample :
    (translateLink o7 false none none link7).shapeArgs =
      some [PathCmd.move 0 0, PathCmd.line 0 0, PathCmd.line 0 10,
        PathCmd.line 1 10] ∧
    (0 : ℚ) ≠ (0 + 1) / 2 ∧
    (translateLink o7 false none none link7).shapeArgs ≠
      some [PathCmd.move 0 0, PathCmd.line ((0 + 1) / 2) 0,
        PathCmd.line ((0 + 1) / 2) 10, PathCmd.line 1 10] := by
  have hs : ¬(("default" : String) = "straight") := by decide
  have hc : ¬(("default" : String) = "curved") := by decide
  refine ⟨?_, by norm_num, ?_⟩ <;>
    norm_num [translateLink, o7, link7, fs7, ts7, linkEndpoints, crispOffset,
      jsRound, jsFloorQ, orZero, curvedPath, hs, hc, Option.getD,
      show Int.tmod 0 2 = 0 from rfl]

/-- For a nonnegative line width, the crisp offset is `1/2` exactly when
the rounded width is odd and `0` when it is even. -/
theorem crispOffset_parity (w : ℚ) (hw : 0 ≤ w) :
    crispOffset w = if Odd (jsRound w) then (1 : ℚ)/2 else 0 := by
  have h0 : 0 ≤ jsRound w := by
    rw [jsRound]
    exact Int.le_floor.mpr (by push_cast; linarith)
  rw [crispOffset, Int.tmod_eq_emod h0 (by norm_num)]
  rcases Int.even_or_odd (jsRound w) with he | ho
  · rw [if_neg (by rwa [Int.not_odd_iff_even])]
    rw [Int.even_iff] at he
    rw [he]
    norm_num
  · rw [if_pos ho]
    rw [Int.odd_iff] at ho
    rw [ho]
    norm_num

/-- C8 (amended): for a nonnegative link line width, every connection
point coordinate is an integer — the floored box-edge value — plus the
parity-derived half-pixel offset (`1/2` iff the rounded line width is
odd, else `0`), except that in an inverted chart `x1` and `x2` are
additionally shifted by the from/to node widths, which destroys the
half-pixel form whenever those widths are fractional. -/
theorem c8_crisp_endpoints (w : ℚ) (hw : 0 ≤ w) (inverted : Bool)
    (fs ts : ShapeBox) :
    ∃ n1 n2 n3 n4 : ℤ,
      (linkEndpoints w inverted fs ts).x1 =
          n1 + crispOffset w - (if inverted then orZero fs.width else 0) ∧
      (linkEndpoints w inverted fs ts).y1 = n2 + crispOffset w ∧
      (linkEndpoints w inverted fs ts).x2 =
          n3 + crispOffset w + (if inverted then orZero ts.width else 0) ∧
      (linkEndpoints w inverted fs ts).y2 = n4 + crispOffset w ∧
      crispOffset w = (if Odd (jsRound w) then (1 : ℚ)/2 else 0) := by
  refine ⟨jsFloor (orZero fs.x + orZero fs.width),
    jsFloor (orZero fs.y + orZero fs.height / 2),
    jsFloor (orZero ts.x),
    jsFloor (orZero ts.y + orZero ts.height / 2),
    ?_, ?_, ?_, ?_, crispOffset_parity w hw⟩ <;>
  · rw [linkEndpoints]
    cases inverted <;> simp [jsFloorQ, jsFloor]

/-- C8 witness: the crisp-offset decomposition of the endpoints of
`link6` (lineWidth 1, not inverted). -/
theorem c8_crisp_endpoints_witness :
    ∃ n1 n2 n3 n4 : ℤ,
      (linkEndpoints 1 false fs6 ts6).x1 =
          n1 + crispOffset 1 - (if false then orZero fs6.width else 0) ∧
      (linkEndpoints 1 false fs6 ts6).y1 = n2 + crispOffset 1 ∧
      (linkEndpoints 1 false fs6 ts6).x2 =
          n3 + crispOffset 1 + (if false then orZero ts6.width else 0) ∧
      (linkEndpoints 1 false fs6 ts6).y2 = n4 + crispOffset 1 ∧
      crispOffset 1 = (if Odd (jsRound 1) then (1 : ℚ)/2 else 0) :=
  c8_crisp_endpoints 1 (by norm_num) false fs6 ts6

/-- C8 counterexample: in an inverted chart with lineWidth 1 (odd, so
the claimed offset is `1/2`) and a from-node of fractional width `1/2`,
the final `x1` is `0` — an integer, not an integer plus `1/2` — because
the inversion adjustment subtracts the node width after the crisp
snapping. -/
theorem c8_inverted_counterexample :
    (linkEndpoints 1 true fs8 ts8).x1 = 0 ∧
    Odd (jsRound 1) ∧
    ¬ ∃ n : ℤ, (linkEndpoints 1 true fs8 ts8).x1 = n + 1/2 := by
  have hx : (linkEndpoints 1 true fs8 ts8).x1 = 0 := by
    norm_num [linkEndpoints, fs8, ts8, crispOffset, jsRound, jsFloorQ, orZero,
      show Int.tmod 1 2 = 1 from rfl]
  have hodd : Odd (jsRound 1) := by
    rw [jsRound]
    norm_num [Int.odd_iff]
  refine ⟨hx, hodd, ?_⟩
  rintro ⟨n, hn⟩
  rw [hx] at hn
  have h3 : ((2 * n : ℤ) : ℚ) = -1 := by push_cast; linarith
  have h4 : (2 * n : ℤ) = -1 := by exact_mod_cast h3
  omega

/-- C9: if either endpoint of a link lacks placed geometry,
`translateLink` leaves the link entirely unchanged — no path, shape
type, plot position, label-anchor box, or tooltip anchor is assigned. -/
theorem c9_unplaced_endpoint_skipped (o : SeriesLinkOptions)
    (inverted : Bool) (plotSizeX plotSizeY : Option ℚ) (link : TLink)
    (h : link.fromNode.shapeArgs = none ∨ link.toNode.shapeArgs = none) :
    translateLink o inverted plotSizeX plotSizeY link = link := by
  rcases link with ⟨⟨fsa⟩, ⟨tsa⟩, lto, px, py, stp, sa, dlb, tp⟩
  rcases fsa with _ | fbox
  · rfl
  · rcases tsa with _ | tbox
    · rfl
    · rcases h with h | h
      · exact absurd h (by simp)
      · exact absurd h (by simp)

/-- C9 witness: `link9`, whose from-endpoint is unplaced, is returned
untouched with all its pre-existing fields intact. -/
theorem c9_unplaced_endpoint_skipped_witness :
    translateLink ⟨1, none, "curved", 10⟩ false none none link9 = link9 :=
  c9_unplaced_endpoint_skipped ⟨1, none, "curved", 10⟩ false none none link9
    (Or.inl rfl)

end Treegraph
